import Mathlib

/-!
Verification of the Ensemble score timeline engine.

This file embeds the core logic of the Ensemble collaborative score
application (measure completion, key-signature resolution, staff geometry,
playback scheduling, client-side placement validation, and the note store's
delete route) as executable Lean definitions, and proves properties of the
specification against them.

Conventions of the embedding:
* JavaScript numbers carrying beat positions, durations and times are
  modelled as `ℚ` (the source only ever manipulates small dyadic values plus
  the `0.001` epsilon, written `1/1000` here).
* JavaScript strings are Lean `String`s; regular-expression matches are
  modelled by explicit pattern matches on `String.toList`.
* A JavaScript object used as a letter-to-accidental map is modelled as a
  function `Char → String`, where `""` plays the role of an absent key
  (the source reads `map[letter] || ''`).
* Fallible lookups/parses (`parseInt` producing `NaN`, failed regex matches
  that propagate `undefined`) are modelled with `Option`.
-/

/-- A stored note, mirroring the `notes` table / the JSON note objects
exchanged with the server (`created_at` is not needed by any claim).
`session_id` is nullable in the schema, hence `Option`. -/
structure Note where
  id : String
  instrument_id : String
  pitch : String
  measure : ℤ
  beat : ℚ
  duration : String
  is_rest : Bool
  accidental : Option String
  dynamic : String
  session_id : Option String
deriving DecidableEq

/-- `DUR_TO_BEATS` from renderer.js: duration name → number of quarter-note
beats; `none` models an absent key. -/
def DUR_TO_BEATS : String → Option ℚ
  | "whole" => some 4
  | "half" => some 2
  | "quarter" => some 1
  | "eighth" => some (1/2)
  | "sixteenth" => some (1/4)
  | _ => none

/-- `DUR_TO_BEATS[d] || 1` (fallback used for a new note's beat count and
for the cursor advance in `buildMeasureNotes`). -/
def durBeatsOr1 (d : String) : ℚ := (DUR_TO_BEATS d).getD 1

/-- `DUR_TO_BEATS[d] || 0` (fallback used when summing a measure's used
beats in the placement capacity checks). -/
def durBeatsOr0 (d : String) : ℚ := (DUR_TO_BEATS d).getD 0

/-- `DUR_TO_VEX` from renderer.js: duration name → VexFlow code. -/
def DUR_TO_VEX : String → Option String
  | "whole" => some "w"
  | "half" => some "h"
  | "quarter" => some "q"
  | "eighth" => some "8"
  | "sixteenth" => some "16"
  | _ => none

/-- `DUR_TO_VEX[d] || 'q'`. -/
def vexDurOr (d : String) : String := (DUR_TO_VEX d).getD "q"

/-- `REST_DURATIONS` from renderer.js: (beat count, VexFlow code), ordered
longest first for the greedy rest fill. -/
def REST_DURATIONS : List (ℚ × String) :=
  [(4, "w"), (2, "h"), (1, "q"), (1/2, "8"), (1/4, "16")]

/-- Circle-of-fifths sharp order from `getKeyAccidentals`. -/
def sharpsOrder : List Char := ['F', 'C', 'G', 'D', 'A', 'E', 'B']

/-- Circle-of-fifths flat order from `getKeyAccidentals`. -/
def flatsOrder : List Char := ['B', 'E', 'A', 'D', 'G', 'C', 'F']

/-- The `map` object inside `getKeyAccidentals`, with the `|| 0` fallback
for unknown keys folded in. -/
def keySigNum (key : String) : ℤ :=
  if key = "C" then 0
  else if key = "G" then 1
  else if key = "D" then 2
  else if key = "A" then 3
  else if key = "E" then 4
  else if key = "B" then 5
  else if key = "F#" then 6
  else if key = "C#" then 7
  else if key = "F" then -1
  else if key = "Bb" then -2
  else if key = "Eb" then -3
  else if key = "Ab" then -4
  else if key = "Db" then -5
  else if key = "Gb" then -6
  else if key = "Cb" then -7
  else 0

/-- `getKeyAccidentals` from renderer.js, as the lookup function the built
object denotes: letter → forced accidental (`"#"`, `"b"`) or `""`. -/
def getKeyAccidentals (key : String) (letter : Char) : String :=
  let n := keySigNum key
  if 0 < n then (if letter ∈ sharpsOrder.take n.toNat then "#" else "")
  else if n < 0 then (if letter ∈ flatsOrder.take (-n).toNat then "b" else "")
  else ""

/-- `pitchAccidental` from renderer.js: the accidental character captured by
`/^[A-G](#|b)?/`, or `""` when the group is absent or the match fails. -/
def pitchAccidental (pitch : String) : String :=
  match pitch.toList with
  | c :: d :: _ =>
      if ('A' ≤ c ∧ c ≤ 'G') ∧ (d = '#' ∨ d = 'b') then String.mk [d] else ""
  | _ => ""

/-- `displayAccidental` from renderer.js: which accidental glyph (if any)
must be displayed for a pitch under a key-signature map. -/
def displayAccidental (pitch : String) (keyAccidentals : Char → String) : Option String :=
  let acc := pitchAccidental pitch
  let keyAcc := match pitch.toList.head? with
    | some letter => keyAccidentals letter
    | none => ""
  if acc = keyAcc then none
  else if acc = "#" then some "#"
  else if acc = "b" then some "b"
  else if acc = "" ∧ keyAcc ≠ "" then some "n"
  else none

/-- `restPosition` from renderer.js: default rest position per clef. -/
def restPosition (clef : String) : String :=
  if clef = "treble" then "b/4"
  else if clef = "alto" then "c/4"
  else if clef = "bass" then "d/3"
  else "b/4"

/-- `pitchToVexKey` from renderer.js: `"D5"` → `"d/5"`; a failed match of
`/^([A-G])(#|b)?(\d)$/` yields `"b/4"`. -/
def pitchToVexKey (pitch : String) : String :=
  match pitch.toList with
  | [c, d] =>
      if ('A' ≤ c ∧ c ≤ 'G') ∧ d.isDigit then String.mk [c.toLower, '/', d] else "b/4"
  | [c, a, d] =>
      if ('A' ≤ c ∧ c ≤ 'G') ∧ (a = '#' ∨ a = 'b') ∧ d.isDigit then
        String.mk [c.toLower, '/', d]
      else "b/4"
  | _ => "b/4"

/-- `NOTE_SEMITONES` from playback.js: note letter → semitone offset from
A4 (letters outside A–G cannot reach the lookup in the source; the `0`
default is unreachable there). -/
def NOTE_SEMITONES (c : Char) : ℤ :=
  if c = 'C' then -9
  else if c = 'D' then -7
  else if c = 'E' then -5
  else if c = 'F' then -4
  else if c = 'G' then -2
  else if c = 'A' then 0
  else if c = 'B' then 2
  else 0

/-- The numeric value of a digit character (`parseInt` on one digit). -/
def charDigitVal (c : Char) : Option ℕ :=
  if c.isDigit then some (c.toNat - '0'.toNat) else none

/-- The anchored match `/^([A-G])(#|b)?(\d)$/` used by `pitchToFreq`:
letter, optional accidental, single octave digit. -/
def matchPitchFull (pitch : String) : Option (Char × Option Char × Char) :=
  match pitch.toList with
  | [c, d] =>
      if ('A' ≤ c ∧ c ≤ 'G') ∧ d.isDigit then some (c, none, d) else none
  | [c, a, d] =>
      if ('A' ≤ c ∧ c ≤ 'G') ∧ (a = '#' ∨ a = 'b') ∧ d.isDigit then
        some (c, some a, d)
      else none
  | _ => none

/-- `pitchToFreq` from playback.js. The source computes
`440 * Math.pow(2, semitones / 12)`; the result is represented symbolically
as the pair `(base, semitones)` denoting `base · 2 ^ (semitones / 12)` Hz,
so `(440, 0)` is exactly 440 Hz. A failed match returns 440 Hz. -/
def pitchToFreq (pitch : String) : ℚ × ℤ :=
  match matchPitchFull pitch with
  | none => (440, 0)
  | some (note, acc, oct) =>
      let semitones : ℤ :=
        NOTE_SEMITONES note + (((charDigitVal oct).getD 0 : ℤ) - 4) * 12
          + (if acc = some '#' then 1 else 0)
          + (if acc = some 'b' then -1 else 0)
      (440, semitones)

/-- Outcome of the `DELETE /api/notes/:id` route: either `{success:true}`
or the single undifferentiated 404
`'Note not found or not owned by this session'`. -/
inductive DeleteOutcome
  | success
  | notFoundOrNotOwned
deriving DecidableEq

/-- The SQL predicate `id = ? AND session_id = ?` on the session part:
comparing against `NULL` never matches. -/
def sessionMatches (rowSession reqSession : Option String) : Bool :=
  match rowSession, reqSession with
  | some a, some b => a = b
  | _, _ => false

/-- The `DELETE /api/notes/:id` route from server.js:
`DELETE FROM notes WHERE id = ? AND session_id = ?`, answering success if
`changes > 0` and the undifferentiated 404 otherwise. -/
def deleteNoteRoute (store : List Note) (noteId : String) (reqSession : Option String) :
    List Note × DeleteOutcome :=
  let hit := fun n : Note => n.id == noteId && sessionMatches n.session_id reqSession
  if store.any hit then (store.filter (fun n => !(hit n)), DeleteOutcome.success)
  else (store, DeleteOutcome.notFoundOrNotOwned)

/-- Score metadata row (single-row `score` table / `scoreData.score`). -/
structure Score where
  title : String
  key_signature : String
  time_signature : String
  tempo : ℚ
  total_measures : ℤ
deriving DecidableEq

/-- The client's `scoreData` object: score metadata plus the note set. -/
structure ScoreData where
  score : Score
  notes : List Note
deriving DecidableEq

/-- Digits of a numeral, most significant first, folded to a `ℕ`. -/
def digitsToNat (l : List Char) : ℕ :=
  l.foldl (fun a c => a * 10 + (c.toNat - '0'.toNat)) 0

/-- `Number(s)` restricted to plain decimal numerals; `none` models `NaN`. -/
def parseNumber (l : List Char) : Option ℕ :=
  if l ≠ [] ∧ l.all (fun c => c.isDigit) then some (digitsToNat l) else none

/-- `score.time_signature.split('/').map(Number)[0]`: the beats-per-measure
numerator of a time signature such as `"4/4"` (a malformed numerator, `NaN`
in the source, is out of scope for every claim and mapped to 0). -/
def timeSigBeats (ts : String) : ℚ :=
  match parseNumber (ts.toList.takeWhile (fun c => c ≠ '/')) with
  | some n => (n : ℚ)
  | none => 0

/-- The solo filter of `PlaybackEngine.play`:
`this.soloInstrument && note.instrument_id !== this.soloInstrument`. -/
def soloExcludes (soloInstrument : Option String) (instrumentId : String) : Bool :=
  match soloInstrument with
  | some s => instrumentId != s
  | none => false

/-- One scheduled sound instruction produced by `PlaybackEngine.play`.
The source hands `_scheduleNote` the pair `(instrument_id, pitch)`; the
whole originating note is kept here so that the schedule's timing can be
stated per note. -/
structure Sched where
  note : Note
  start : ℚ
  dur : ℚ
deriving DecidableEq

/-- The scheduling loop of `PlaybackEngine.play(scoreData, fromMeasure)`:
skips rests, notes before the start measure, notes excluded by an active
solo filter and muted instruments; schedules everything else at
`startTime + ((measure - fromMeasure) * beatsNum + (beat - 1)) * secPerBeat`
for `durBeats * secPerBeat` seconds, where `secPerBeat = 60 / tempo`. -/
def playSchedule (data : ScoreData) (fromMeasure : ℤ) (mutedInstruments : List String)
    (soloInstrument : Option String) (startTime : ℚ) : List Sched :=
  let tempo := data.score.tempo
  let beatsNum := timeSigBeats data.score.time_signature
  let secPerBeat := 60 / tempo
  data.notes.filterMap fun note =>
    if note.is_rest then none
    else if note.measure < fromMeasure then none
    else if soloExcludes soloInstrument note.instrument_id then none
    else if note.instrument_id ∈ mutedInstruments then none
    else
      let measureOffset : ℚ := ((note.measure - fromMeasure : ℤ) : ℚ)
      let beatOffset := measureOffset * beatsNum + (note.beat - 1)
      some ⟨note, startTime + beatOffset * secPerBeat, durBeatsOr1 note.duration * secPerBeat⟩

/-- An instrument timbre profile from the `TIMBRES` table in playback.js. -/
structure Timbre where
  waveform : String
  gain : ℚ
  attack : ℚ
  decay : ℚ
  sustain : ℚ
  release : ℚ
  harmonics : List ℚ
  vibratoRate : ℚ
  vibratoDepth : ℚ
  filterFreq : ℚ
deriving DecidableEq

/-- `TIMBRES.violin1`. -/
def violin1Timbre : Timbre :=
  ⟨"sawtooth", 12/100, 4/100, 8/100, 7/10, 12/100, [1, 1/2, 3/10], 11/2, 3, 4000⟩

/-- `TIMBRES.violin2`. -/
def violin2Timbre : Timbre :=
  ⟨"sawtooth", 1/10, 5/100, 8/100, 65/100, 12/100, [1, 2/5, 1/4], 26/5, 5/2, 3500⟩

/-- `TIMBRES.viola`. -/
def violaTimbre : Timbre :=
  ⟨"sawtooth", 11/100, 6/100, 1/10, 3/5, 15/100, [1, 1/2, 35/100, 15/100], 5, 5/2, 2800⟩

/-- `TIMBRES.cello`. -/
def celloTimbre : Timbre :=
  ⟨"sawtooth", 13/100, 7/100, 12/100, 3/5, 18/100, [1, 3/5, 2/5, 1/5], 9/2, 2, 2000⟩

/-- `TIMBRES.contrabass`. -/
def contrabassTimbre : Timbre :=
  ⟨"sawtooth", 14/100, 8/100, 15/100, 55/100, 1/5, [1, 7/10, 2/5, 1/5, 1/10], 4, 3/2, 1200⟩

/-- The `TIMBRES` lookup table. -/
def TIMBRES : String → Option Timbre
  | "violin1" => some violin1Timbre
  | "violin2" => some violin2Timbre
  | "viola" => some violaTimbre
  | "cello" => some celloTimbre
  | "contrabass" => some contrabassTimbre
  | _ => none

/-- `TIMBRES[instrumentId] || TIMBRES.violin1` from `_scheduleNote`. -/
def timbreOf (instrumentId : String) : Timbre :=
  (TIMBRES instrumentId).getD violin1Timbre

/-- One Web Audio gain-automation call issued on `masterGain.gain`. -/
inductive GainEvent
  | setValue (value : ℚ) (time : ℚ)
  | linearRampToValueAtTime (value : ℚ) (time : ℚ)
deriving DecidableEq

/-- The ADSR automation sequence issued by `PlaybackEngine._scheduleNote`
for a note starting at `startTime` with sounding duration `duration`. -/
def envelopeEvents (tb : Timbre) (startTime duration : ℚ) : List GainEvent :=
  let endTime := startTime + duration
  [GainEvent.setValue 0 startTime,
   GainEvent.linearRampToValueAtTime 1 (startTime + tb.attack),
   GainEvent.linearRampToValueAtTime tb.sustain (startTime + tb.attack + tb.decay),
   GainEvent.setValue tb.sustain (endTime - tb.release),
   GainEvent.linearRampToValueAtTime 0 endTime]

/-- The time stamp of a gain-automation call. -/
def gainEventTime : GainEvent → ℚ
  | GainEvent.setValue _ t => t
  | GainEvent.linearRampToValueAtTime _ t => t

/-- Start of the sustain hold: the time of the third automation event
(ramp down to the sustain level finished). -/
def envHoldStart (tb : Timbre) (startTime duration : ℚ) : ℚ :=
  gainEventTime ((envelopeEvents tb startTime duration).getD 2 (GainEvent.setValue 0 0))

/-- End of the sustain hold: the time of the fourth automation event
(sustain value re-asserted before the release ramp). -/
def envHoldEnd (tb : Timbre) (startTime duration : ℚ) : ℚ :=
  gainEventTime ((envelopeEvents tb startTime duration).getD 3 (GainEvent.setValue 0 0))

/-- The notes of one `(instrument, measure)` cell, as filtered by both
client placement paths. -/
def notesFor (notes : List Note) (instrumentId : String) (measure : ℤ) : List Note :=
  notes.filter (fun n => n.instrument_id == instrumentId && n.measure == measure)

/-- `existingNotes.reduce((sum, n) => sum + (DUR_TO_BEATS[n.duration] || 0), 0)`
over one `(instrument, measure)` cell. -/
def usedBeatsIn (notes : List Note) (instrumentId : String) (measure : ℤ) : ℚ :=
  ((notesFor notes instrumentId measure).map (fun n => durBeatsOr0 n.duration)).sum

/-- The accidental-override `switch` in `NoteEditor._placeNote`: rebuilds the
pitch string from its first character (letter) and last character (octave). -/
def applyAccidentalOverride (selectedAccidental : String) (pitch : String) : String :=
  match pitch.toList.head?, pitch.toList.getLast? with
  | some letter, some octave =>
      if selectedAccidental = "sharp" then String.mk [letter, '#', octave]
      else if selectedAccidental = "flat" then String.mk [letter, 'b', octave]
      else if selectedAccidental = "natural" then String.mk [letter, octave]
      else pitch
  | _, _ => pitch

/-- The note payload POSTed to `/api/notes` (server assigns id/timestamp). -/
structure NoteRequest where
  instrument_id : String
  pitch : String
  measure : ℤ
  beat : ℚ
  duration : String
  is_rest : Bool
  accidental : Option String
  dynamic : String
  session_id : String
deriving DecidableEq

/-- `NoteEditor._placeNote(pitch, beat)`: `none` is the local rejection path
(red flash, no network call, note set unchanged); `some` is the payload
handed to `API.addNote`. -/
def placeNote (data : ScoreData) (instrumentId : String) (measure : ℤ)
    (selectedDuration : String) (selectedAccidental : Option String) (restMode : Bool)
    (dynamic : String) (sessionId : String) (pitch : String) (beat : ℚ) :
    Option NoteRequest :=
  let beatsNum := timeSigBeats data.score.time_signature
  let usedBeats := usedBeatsIn data.notes instrumentId measure
  let newNoteBeats := durBeatsOr1 selectedDuration
  if beatsNum < usedBeats + newNoteBeats ∨ beatsNum < beat + newNoteBeats - 1 then
    none
  else
    let finalPitch :=
      match selectedAccidental with
      | some a => if restMode then pitch else applyAccidentalOverride a pitch
      | none => pitch
    some ⟨instrumentId, finalPitch, measure, beat, selectedDuration, restMode,
      selectedAccidental, dynamic, sessionId⟩

/-- The `existing`-note test of the editor's click handler: is there a note
of this `(instrument, measure)` whose beat is within `0.01` of the click's
beat?  When `true`, the click deletes that note instead of placing one. -/
def editorClickFindsExisting (data : ScoreData) (instrumentId : String) (measure : ℤ)
    (beat : ℚ) : Bool :=
  data.notes.any fun n =>
    n.instrument_id == instrumentId && n.measure == measure &&
      decide (|n.beat - beat| < 1/100)

/-- The beat computed by `BeginnerRenderer._getPos`:
`max(1, min(beatsNum, floor(relX / beatWidth) + 1))`. -/
def beginnerBeatAt (relX beatWidth beatsNum : ℚ) : ℚ :=
  max 1 (min beatsNum ((⌊relX / beatWidth⌋ : ℚ) + 1))

/-- The placement part of `BeginnerRenderer._onClick`: capacity check
(`usedBeats + 1 > beatsNum`, the new note being a 1-beat quarter), then the
occupied-slot check; `none` is a silent no-op without any network call. -/
def beginnerPlace (data : ScoreData) (currentInstrument : String) (currentMeasure : ℤ)
    (sessionId : String) (pitch : String) (beat : ℚ) : Option NoteRequest :=
  let beatsNum := timeSigBeats data.score.time_signature
  let existing := notesFor data.notes currentInstrument currentMeasure
  let usedBeats := (existing.map (fun n => durBeatsOr0 n.duration)).sum
  if beatsNum < usedBeats + 1 then none
  else if existing.any (fun n => decide (|n.beat - beat| < 1/100)) then none
  else some ⟨currentInstrument, pitch, currentMeasure, beat, "quarter", false, none,
    "mf", sessionId⟩

/-- Two beat spans `[b₁, b₁+d₁)` and `[b₂, b₂+d₂)` overlap. -/
def spansOverlap (b1 d1 b2 d2 : ℚ) : Prop := b1 < b2 + d2 ∧ b2 < b1 + d1

/-- A VexFlow `StaveNote` as constructed by `buildMeasureNotes` /
`pushRests`.  `beats` is the beat count denoted by the VexFlow duration
code carried by the glyph (the code only ever emits codes from
`DUR_TO_VEX` plus the `'r'` suffix for rests, so this is well defined);
`srcId` is the `_ensembleId` stored on non-rest source notes. -/
structure VexStaveNote where
  clef : String
  keys : List String
  vexDuration : String
  isRest : Bool
  beats : ℚ
  displayAcc : Option String
  srcId : Option String
deriving DecidableEq

/-- The rest `StaveNote` pushed by `pushRests` for one duration entry. -/
def restStaveNote (clef : String) (durBeats : ℚ) (durVex : String) : VexStaveNote :=
  ⟨clef, [restPosition clef], durVex ++ "r", true, durBeats, none, none⟩

/-- The inner `while (rem >= durBeats - 0.001)` loop of `pushRests` for one
duration entry: emits rests of that duration and returns the remaining gap.
(The guard `1/4 ≤ durBeats` is always true at the call sites — every entry
of `REST_DURATIONS` is at least a sixteenth — and only serves
termination.) -/
def fillLoop (clef : String) (durBeats : ℚ) (durVex : String) (rem : ℚ) :
    List VexStaveNote × ℚ :=
  if h : 1/4 ≤ durBeats ∧ durBeats - 1/1000 ≤ rem then
    (restStaveNote clef durBeats durVex :: (fillLoop clef durBeats durVex (rem - durBeats)).1,
     (fillLoop clef durBeats durVex (rem - durBeats)).2)
  else ([], rem)
termination_by (⌈4 * rem⌉).toNat
decreasing_by
  all_goals
    obtain ⟨h1, h2⟩ := h
    have hc1 : 0 < ⌈4 * rem⌉ := Int.ceil_pos.mpr (by linarith)
    have h4 : ⌈4 * (rem - durBeats)⌉ ≤ ⌈4 * rem⌉ - 1 := by
      have hle : 4 * (rem - durBeats) ≤ 4 * rem - 1 := by linarith
      calc ⌈4 * (rem - durBeats)⌉ ≤ ⌈4 * rem - 1⌉ := Int.ceil_le_ceil hle
      _ = ⌈4 * rem⌉ - 1 := Int.ceil_sub_one _
    omega

/-- The `for (const [durBeats, durVex] of REST_DURATIONS)` loop of
`pushRests`. -/
def pushRestsGo (clef : String) : ℚ → List (ℚ × String) → List VexStaveNote
  | _, [] => []
  | rem, (durBeats, durVex) :: rest =>
      (fillLoop clef durBeats durVex rem).1 ++
        pushRestsGo clef (fillLoop clef durBeats durVex rem).2 rest

/-- `pushRests` from renderer.js: greedily fill a gap of `beats` beats with
rests, longest duration first. -/
def pushRests (clef : String) (beats : ℚ) : List VexStaveNote :=
  pushRestsGo clef beats REST_DURATIONS

/-- Total beat count of a list of emitted stave notes. -/
def sumBeats (l : List VexStaveNote) : ℚ := (l.map (fun e => e.beats)).sum

/-- The `StaveNote` emitted by `buildMeasureNotes` for one source note:
input rests become plain rest glyphs at the clef's rest position; pitched
notes carry their VexFlow key, their display accidental and their id. -/
def noteStaveNote (clef : String) (keyAccidentals : Char → String) (n : Note) :
    VexStaveNote :=
  if n.is_rest then
    ⟨clef, [restPosition clef], vexDurOr n.duration ++ "r", true,
      durBeatsOr1 n.duration, none, none⟩
  else
    ⟨clef, [pitchToVexKey n.pitch], vexDurOr n.duration, false,
      durBeatsOr1 n.duration, displayAccidental n.pitch keyAccidentals, some n.id⟩

/-- The cursor loop of `buildMeasureNotes` over the beat-sorted note list:
fill the gap before a note when `note.beat > cursor + 0.001`, emit the note,
advance the cursor by its beat count; after the last note fill
`beatsPerMeasure - cursor + 1` if it exceeds the epsilon. -/
def buildGo (clef : String) (keyAccidentals : Char → String) (beatsPerMeasure : ℚ) :
    ℚ → List Note → List VexStaveNote
  | cursor, [] =>
      let remaining := beatsPerMeasure - cursor + 1
      if 1/1000 < remaining then pushRests clef remaining else []
  | cursor, note :: rest =>
      if cursor + 1/1000 < note.beat then
        pushRests clef (note.beat - cursor) ++
          (noteStaveNote clef keyAccidentals note ::
            buildGo clef keyAccidentals beatsPerMeasure
              (note.beat + durBeatsOr1 note.duration) rest)
      else
        noteStaveNote clef keyAccidentals note ::
          buildGo clef keyAccidentals beatsPerMeasure
            (cursor + durBeatsOr1 note.duration) rest

/-- The beat-ascending sort `[...notes].sort((a, b) => a.beat - b.beat)`. -/
def sortNotesByBeat (notes : List Note) : List Note :=
  List.insertionSort (fun a b => a.beat ≤ b.beat) notes

/-- `buildMeasureNotes` from renderer.js: the measure-completion algorithm,
producing the ordered sequence of stave notes (source notes plus
synthesized rests) for one measure. -/
def buildMeasureNotes (notes : List Note) (clef : String)
    (keyAccidentals : Char → String) (beatsPerMeasure : ℚ) : List VexStaveNote :=
  buildGo clef keyAccidentals beatsPerMeasure 1 (sortNotesByBeat notes)

/-- A rational lies on the sixteenth-note grid (an integer number of
quarter beats). -/
def QuarterGrid (q : ℚ) : Prop := ∃ k : ℤ, q = k / 4

/-- `DIATONIC` from editor.js. -/
def DIATONIC : List Char := ['C', 'D', 'E', 'F', 'G', 'A', 'B']

/-- `CLEF_BASE` from editor.js: clef → (noteIdx, octave) of the pitch on
the top staff line, with the `|| CLEF_BASE.treble` fallback folded in. -/
def CLEF_BASE (clef : String) : ℕ × ℕ :=
  if clef = "treble" then (3, 5)
  else if clef = "alto" then (4, 4)
  else if clef = "bass" then (5, 3)
  else (3, 5)

/-- `DIATONIC.indexOf(letter)`. -/
def diatonicIndex (c : Char) : ℕ := DIATONIC.indexOf c

/-- `pitchToLinePos` from editor.js.  A failed `/^([A-G])/` match returns
position 2; `parseInt` of a non-digit final character makes the whole JS
computation `NaN`, modelled as `none`. -/
def pitchToLinePos (pitch : String) (clef : String) : Option ℚ :=
  match pitch.toList.head? with
  | none => some 2
  | some c =>
      if 'A' ≤ c ∧ c ≤ 'G' then
        match pitch.toList.getLast? with
        | some lastChar =>
            match charDigitVal lastChar with
            | some octave =>
                let noteIdx := diatonicIndex c
                let base := CLEF_BASE clef
                let pitchAbs : ℤ := noteIdx + octave * 7
                let baseAbs : ℤ := base.1 + base.2 * 7
                some (((baseAbs - pitchAbs : ℤ) : ℚ) / 2)
            | none => none
        | none => none
      else some 2

/-- `linePosToPitch` from editor.js: `Math.round` is `⌊x + 1/2⌋`,
`Math.floor(absPos / 7)` is the floor of the rational quotient, and the JS
`%` remainder (sign of the dividend) is `Int.tmod`; the negative-remainder
fix-up then mirrors the source. -/
def linePosToPitch (linePos : ℚ) (clef : String) (keyAccidentals : Char → String) :
    String :=
  let base := CLEF_BASE clef
  let steps : ℤ := ⌊linePos * 2 + 1/2⌋
  let absPos : ℤ := (base.1 + base.2 * 7 : ℤ) - steps
  let octave0 : ℤ := ⌊(absPos : ℚ) / 7⌋
  let noteIdx0 : ℤ := Int.tmod absPos 7
  let noteIdx : ℤ := if noteIdx0 < 0 then noteIdx0 + 7 else noteIdx0
  let octave : ℤ := if noteIdx0 < 0 then octave0 - 1 else octave0
  let letter := DIATONIC.getD noteIdx.toNat 'C'
  String.mk [letter] ++ keyAccidentals letter ++ toString octave

/-- The seeded score row: D major, 4/4, tempo 100, 32 measures. -/
def seedScore : Score := ⟨"Untitled No. 1", "D", "4/4", 100, 32⟩

/-- Fixture: a quarter note at measure 2, beat 3 (playback scenario). -/
def schedNote : Note :=
  ⟨"n1", "violin1", "E4", 2, 3, "quarter", false, none, "mf", some "s1"⟩

/-- Fixture: score data holding just `schedNote`. -/
def schedData : ScoreData := ⟨seedScore, [schedNote]⟩

/-- Fixture: the schedule entry expected for `schedNote` played from
measure 1 at tempo 100 (start 3.6 s, duration 0.6 s). -/
def schedEntry : Sched := ⟨schedNote, 18/5, 3/5⟩

/-- Fixture: quarter note at beat 1 (capacity scenario). -/
def quarterAt1 : Note :=
  ⟨"a1", "violin1", "D4", 1, 1, "quarter", false, none, "mf", some "s1"⟩

/-- Fixture: quarter note at beat 2 (capacity scenario). -/
def quarterAt2 : Note :=
  ⟨"a2", "violin1", "E4", 1, 2, "quarter", false, none, "mf", some "s1"⟩

/-- Fixture: quarter note at beat 3 (capacity scenario). -/
def quarterAt3 : Note :=
  ⟨"a3", "violin1", "F#4", 1, 3, "quarter", false, none, "mf", some "s1"⟩

/-- Fixture: eighth note at beat 4 (capacity scenario). -/
def eighthAt4 : Note :=
  ⟨"a4", "violin1", "G4", 1, 4, "eighth", false, none, "mf", some "s1"⟩

/-- Fixture: a measure already holding 3.5 beats of notes. -/
def data35 : ScoreData := ⟨seedScore, [quarterAt1, quarterAt2, quarterAt3, eighthAt4]⟩

/-- Fixture: a half note at beat 1 (overlap scenario, beginner path). -/
def halfAt1 : Note :=
  ⟨"b1", "violin1", "G4", 1, 1, "half", false, none, "mf", some "s0"⟩

/-- Fixture: score data with one quarter note at beat 2 (overlap scenario,
editor path). -/
def dataEditorOverlap : ScoreData := ⟨seedScore, [quarterAt2]⟩

/-- Fixture: score data with one half note at beat 1 (overlap scenario,
beginner path). -/
def dataBeginnerOverlap : ScoreData := ⟨seedScore, [halfAt1]⟩

/-- Fixture: a half note at beat 1 (measure-completion scenario of the
spec: `completeMeasure` must add a half rest at beat 3). -/
def halfNoteAtOne : Note :=
  ⟨"w1", "violin1", "D4", 1, 1, "half", false, none, "mf", some "s1"⟩

/-- Fixture: a quarter note at the off-grid beat 1.1. -/
def offGridNote : Note :=
  ⟨"x1", "violin1", "C4", 1, 11/10, "quarter", false, none, "mf", some "s1"⟩

/-- Fixture: a whole note at beat 4 of a 4-beat measure (its span sticks
out past the barline although its beat is in range and its duration sums
to no more than the measure). -/
def lateWholeNote : Note :=
  ⟨"x2", "violin1", "C4", 1, 4, "whole", false, none, "mf", some "s1"⟩

/-- Fixture: a note owned by session `sOwner` (delete-route scenario). -/
def ownedNote : Note :=
  ⟨"d1", "violin1", "A4", 1, 1, "quarter", false, none, "mf", some "sOwner"⟩

instance : DecidableRel (fun (a b : Note) => a.beat ≤ b.beat) :=
  fun a b => inferInstanceAs (Decidable (a.beat ≤ b.beat))

instance : IsTotal Note (fun a b => a.beat ≤ b.beat) :=
  ⟨fun a b => le_total a.beat b.beat⟩

instance : IsTrans Note (fun a b => a.beat ≤ b.beat) :=
  ⟨fun _ _ _ hab hbc => le_trans hab hbc⟩

/-- Appending a string to an explicit character list concatenates the
underlying lists. -/
theorem toList_mk_append (l : List Char) (s : String) :
    (String.mk l ++ s).toList = l ++ s.toList := rfl

/-- Evaluation of `displayAccidental` once the letter and the stored
accidental of the pitch string are known. -/
theorem displayAccidental_eval (p : String) (K : Char → String) (L : Char) (a : String)
    (hhead : p.toList.head? = some L) (hacc : pitchAccidental p = a) :
    displayAccidental p K =
      (if a = K L then none
       else if a = "#" then some "#"
       else if a = "b" then some "b"
       else if a = "" ∧ K L ≠ "" then some "n"
       else none) := by
  simp only [displayAccidental, hhead, hacc]

/-- Claim C3: `displayAccidental` returns nothing when the stored accidental
equals the key's forced accidental for the letter, a natural sign when the
pitch has no accidental but the key forces one, and otherwise the pitch's
own sharp or flat; in D major, F4 shows `n`, F#4 shows nothing, C#4 shows
nothing, and C4 shows `n`. -/
theorem displayAccidental_resolution (L : Char) (acc : String) (oct : Char)
    (K : Char → String) (hL : 'A' ≤ L ∧ L ≤ 'G')
    (hacc : acc = "" ∨ acc = "#" ∨ acc = "b") (hoct : oct.isDigit = true) :
    (acc = K L → displayAccidental (String.mk [L] ++ acc ++ String.mk [oct]) K = none) ∧
    (acc = "" → K L ≠ "" →
      displayAccidental (String.mk [L] ++ acc ++ String.mk [oct]) K = some "n") ∧
    (acc ≠ K L → acc = "#" →
      displayAccidental (String.mk [L] ++ acc ++ String.mk [oct]) K = some "#") ∧
    (acc ≠ K L → acc = "b" →
      displayAccidental (String.mk [L] ++ acc ++ String.mk [oct]) K = some "b") ∧
    displayAccidental "F4" (getKeyAccidentals "D") = some "n" ∧
    displayAccidental "F#4" (getKeyAccidentals "D") = none ∧
    displayAccidental "C#4" (getKeyAccidentals "D") = none ∧
    displayAccidental "C4" (getKeyAccidentals "D") = some "n" := by
  have hoct' : ¬(oct = '#' ∨ oct = 'b') := by
    rintro (rfl | rfl) <;> simp [Char.isDigit] at hoct
  have hhead : (String.mk [L] ++ acc ++ String.mk [oct]).toList.head? = some L := rfl
  have hacc' : pitchAccidental (String.mk [L] ++ acc ++ String.mk [oct]) = acc := by
    rcases hacc with rfl | rfl | rfl
    · have h1 : (String.mk [L] ++ "" ++ String.mk [oct]).toList = [L, oct] := rfl
      rw [pitchAccidental, h1]
      simp [hoct']
    · have h1 : (String.mk [L] ++ "#" ++ String.mk [oct]).toList = [L, '#', oct] := rfl
      rw [pitchAccidental, h1]
      simp [hL]
    · have h1 : (String.mk [L] ++ "b" ++ String.mk [oct]).toList = [L, 'b', oct] := rfl
      rw [pitchAccidental, h1]
      simp [hL]
  rw [displayAccidental_eval _ K L acc hhead hacc']
  refine ⟨?_, ?_, ?_, ?_, by decide, by decide, by decide, by decide⟩
  · intro h
    rw [if_pos h]
  · intro h1 h2
    subst h1
    rw [if_neg (Ne.symm h2)]
    simp [h2]
  · intro h1 h2
    subst h2
    rw [if_neg h1]
    simp
  · intro h1 h2
    subst h2
    rw [if_neg h1]
    simp

/-- Witness for `displayAccidental_resolution`: in D major a stored F4
displays a natural sign. -/
theorem displayAccidental_resolution_witness :
    displayAccidental (String.mk ['F'] ++ "" ++ String.mk ['4']) (getKeyAccidentals "D")
      = some "n" :=
  (displayAccidental_resolution 'F' "" '4' (getKeyAccidentals "D") (by decide)
    (Or.inl rfl) (by decide)).2.1 rfl (by decide)

/-- Claim C10: `pitchToFreq` is total over arbitrary strings; every input
that cannot be decomposed as a letter A–G, an optional `#` or `b`, and one
octave digit is sounded at exactly the 440 Hz reference (represented as
`(440, 0)`, that is `440 · 2 ^ 0`). -/
theorem pitchToFreq_fallback_440 (pitch : String)
    (hno : ¬ ∃ (c : Char) (a : Option Char) (d : Char),
      ('A' ≤ c ∧ c ≤ 'G') ∧ (a = none ∨ a = some '#' ∨ a = some 'b') ∧
        d.isDigit = true ∧ pitch.toList = c :: a.toList ++ [d]) :
    pitchToFreq pitch = (440, 0) := by
  have hm : matchPitchFull pitch = none := by
    rcases hl : pitch.toList with _ | ⟨c, _ | ⟨d, _ | ⟨e, _ | ⟨f, tail⟩⟩⟩⟩
    · simp only [matchPitchFull, hl]
    · simp only [matchPitchFull, hl]
    · simp only [matchPitchFull, hl]
      rw [if_neg]
      rintro ⟨⟨h1, h2⟩, h3⟩
      exact hno ⟨c, none, d, ⟨h1, h2⟩, Or.inl rfl, h3, by rw [hl]; rfl⟩
    · simp only [matchPitchFull, hl]
      rw [if_neg]
      rintro ⟨⟨h1, h2⟩, h3, h4⟩
      refine hno ⟨c, some d, e, ⟨h1, h2⟩, ?_, h4, by rw [hl]; rfl⟩
      rcases h3 with rfl | rfl
      · exact Or.inr (Or.inl rfl)
      · exact Or.inr (Or.inr rfl)
    · simp only [matchPitchFull, hl]
  rw [pitchToFreq, hm]

/-- Witness for `pitchToFreq_fallback_440`: the two-digit octave string
`"A10"` does not match the pattern and is sounded as A440. -/
theorem pitchToFreq_fallback_440_witness : pitchToFreq "A10" = (440, 0) :=
  pitchToFreq_fallback_440 "A10" (by
    rintro ⟨c, a, d, ⟨h1, h2⟩, ha, hd, hl⟩
    rcases ha with rfl | rfl | rfl <;> simp_all)

/-- Claim C9: the delete route removes a note exactly when the presented
session id matches the note's creating session id (and the id matches);
otherwise the store is unchanged and the single undifferentiated
`notFoundOrNotOwned` rejection is returned, for a missing note and a
non-owning session alike.  `sessionMatches` on two present sessions is
equality, and never matches when either side is `NULL`. -/
theorem deleteNoteRoute_ownership (store : List Note) (noteId : String)
    (reqSession : Option String) :
    (∀ n : Note, n ∈ (deleteNoteRoute store noteId reqSession).1 ↔
      (n ∈ store ∧ ¬(n.id = noteId ∧ sessionMatches n.session_id reqSession = true))) ∧
    ((deleteNoteRoute store noteId reqSession).2 = DeleteOutcome.success ↔
      ∃ n ∈ store, n.id = noteId ∧ sessionMatches n.session_id reqSession = true) ∧
    ((¬ ∃ n ∈ store, n.id = noteId ∧ sessionMatches n.session_id reqSession = true) →
      deleteNoteRoute store noteId reqSession = (store, DeleteOutcome.notFoundOrNotOwned)) ∧
    (∀ a b : String, sessionMatches (some a) (some b) = true ↔ a = b) ∧
    (∀ rs : Option String, sessionMatches rs none = false) := by
  refine ⟨?_, ?_, ?_, by intro a b; simp [sessionMatches], by
    intro rs; cases rs <;> simp [sessionMatches]⟩
  · intro n
    rw [deleteNoteRoute]
    by_cases hany : store.any
        (fun n => n.id == noteId && sessionMatches n.session_id reqSession) = true
    · rw [if_pos hany]
      simp only [List.mem_filter, Bool.not_eq_eq_eq_not, Bool.not_true, Bool.and_eq_false_imp,
        beq_iff_eq, Bool.not_eq_true]
      constructor
      · rintro ⟨h1, h2⟩
        exact ⟨h1, fun ⟨ha, hb⟩ => by rw [h2 ha] at hb; exact Bool.false_ne_true hb⟩
      · rintro ⟨h1, h2⟩
        refine ⟨h1, fun ha => ?_⟩
        by_contra hb
        exact h2 ⟨ha, by simpa using hb⟩
    · rw [if_neg hany]
      simp only [List.any_eq_true, Bool.and_eq_true, beq_iff_eq] at hany
      push_neg at hany
      constructor
      · intro hn
        exact ⟨hn, fun ⟨h1, h2⟩ => by simpa [h1, h2] using hany n hn⟩
      · exact fun h => h.1
  · rw [deleteNoteRoute]
    by_cases hany : store.any
        (fun n => n.id == noteId && sessionMatches n.session_id reqSession) = true
    · rw [if_pos hany]
      simp only [List.any_eq_true, Bool.and_eq_true, beq_iff_eq] at hany
      simpa using hany
    · rw [if_neg hany]
      simp only [List.any_eq_true, Bool.and_eq_true, beq_iff_eq] at hany
      push_neg at hany
      constructor
      · rintro ⟨⟩
      · rintro ⟨n, hn, h1, h2⟩
        simpa [h1, h2] using hany n hn
  · intro hnone
    rw [deleteNoteRoute, if_neg]
    simp only [List.any_eq_true, Bool.and_eq_true, beq_iff_eq]
    push_neg at hnone ⊢
    exact fun n hn h1 => by simpa [h1] using hnone n hn

/-- Witness for `deleteNoteRoute_ownership`: a non-owning session deleting
`ownedNote` gets the undifferentiated rejection and removes nothing. -/
theorem deleteNoteRoute_ownership_witness :
    deleteNoteRoute [ownedNote] "d1" (some "sIntruder")
      = ([ownedNote], DeleteOutcome.notFoundOrNotOwned) :=
  (deleteNoteRoute_ownership [ownedNote] "d1" (some "sIntruder")).2.2.1 (by
    rintro ⟨n, hn, h1, h2⟩
    simp only [List.mem_singleton] at hn
    subst hn
    simp [ownedNote, sessionMatches] at h2)

/-- Claim C4: every note scheduled by `play(scoreData, fromMeasure)` is a
non-rest note from a measure at or after `fromMeasure` that passes the
mute/solo filters, its start offset from the playback start instant is
`((measure - fromMeasure) * beatsPerMeasure + (beat - 1)) * (60 / tempo)`,
and its sounding duration is `durationBeats * (60 / tempo)`. -/
theorem playSchedule_timing (data : ScoreData) (fromMeasure : ℤ)
    (muted : List String) (solo : Option String) (t0 : ℚ) (s : Sched)
    (hs : s ∈ playSchedule data fromMeasure muted solo t0) :
    s.note ∈ data.notes ∧ s.note.is_rest = false ∧ fromMeasure ≤ s.note.measure ∧
    s.start - t0 =
      (((s.note.measure - fromMeasure : ℤ) : ℚ) * timeSigBeats data.score.time_signature
        + (s.note.beat - 1)) * (60 / data.score.tempo) ∧
    s.dur = durBeatsOr1 s.note.duration * (60 / data.score.tempo) := by
  rw [playSchedule] at hs
  simp only [List.mem_filterMap] at hs
  obtain ⟨n, hn, hval⟩ := hs
  by_cases h1 : n.is_rest = true
  · rw [if_pos h1] at hval
    exact absurd hval (by simp)
  rw [if_neg h1] at hval
  by_cases h2 : n.measure < fromMeasure
  · rw [if_pos h2] at hval
    exact absurd hval (by simp)
  rw [if_neg h2] at hval
  by_cases h3 : soloExcludes solo n.instrument_id = true
  · rw [if_pos h3] at hval
    exact absurd hval (by simp)
  rw [if_neg h3] at hval
  by_cases h4 : n.instrument_id ∈ muted
  · rw [if_pos h4] at hval
    exact absurd hval (by simp)
  rw [if_neg h4] at hval
  obtain ⟨sn, sstart, sdur⟩ := s
  rw [Option.some.injEq, Sched.mk.injEq] at hval
  obtain ⟨rfl, rfl, rfl⟩ := hval
  dsimp only
  exact ⟨hn, by simpa using h1, not_lt.mp h2, by ring, rfl⟩

/-- Witness for `playSchedule_timing`: at tempo 100 in 4/4, the quarter
note at measure 2 beat 3 played from measure 1 starts 3.6 s after the
playback start instant and sounds for 0.6 s. -/
theorem playSchedule_timing_witness :
    schedEntry ∈ playSchedule schedData 1 [] none 0 ∧
    schedEntry.start - 0 =
      (((schedEntry.note.measure - 1 : ℤ) : ℚ) * timeSigBeats schedData.score.time_signature
        + (schedEntry.note.beat - 1)) * (60 / schedData.score.tempo) ∧
    schedEntry.start = 18/5 ∧ schedEntry.dur = 3/5 := by
  have ht : timeSigBeats "4/4" = 4 := rfl
  have hmem : schedEntry ∈ playSchedule schedData 1 [] none 0 := by
    simp only [playSchedule, schedData, schedEntry, schedNote, seedScore, soloExcludes,
      List.filterMap_cons, List.filterMap_nil, ht]
    norm_num [Sched.mk.injEq, durBeatsOr1, DUR_TO_BEATS]
  exact ⟨hmem, (playSchedule_timing schedData 1 [] none 0 schedEntry hmem).2.2.2.1,
    by norm_num [schedEntry], by norm_num [schedEntry]⟩

/-- Every entry of the `TIMBRES` table has a strictly positive release. -/
theorem timbres_release_pos (instrumentId : String) (tb : Timbre)
    (h : TIMBRES instrumentId = some tb) : 0 < tb.release := by
  rw [TIMBRES.eq_def] at h
  split at h <;> simp only [Option.some.injEq, reduceCtorEq] at h
  · subst h; norm_num [violin1Timbre]
  · subst h; norm_num [violin2Timbre]
  · subst h; norm_num [violaTimbre]
  · subst h; norm_num [celloTimbre]
  · subst h; norm_num [contrabassTimbre]

/-- Every timbre the engine can select has a strictly positive release. -/
theorem timbreOf_release_pos (instrumentId : String) : 0 < (timbreOf instrumentId).release := by
  rcases hT : TIMBRES instrumentId with _ | tb
  · rw [timbreOf, hT]
    norm_num [violin1Timbre]
  · rw [timbreOf, hT]
    exact timbres_release_pos instrumentId tb hT

/-- The hold interval of the emitted envelope starts when the decay ramp
ends. -/
theorem envHoldStart_eq (tb : Timbre) (t0 d : ℚ) :
    envHoldStart tb t0 d = t0 + tb.attack + tb.decay := rfl

/-- The hold interval of the emitted envelope ends `release` before the
note's end. -/
theorem envHoldEnd_eq (tb : Timbre) (t0 d : ℚ) :
    envHoldEnd tb t0 d = t0 + d - tb.release := rfl

/-- Claim C7 (amended): `_scheduleNote` always emits the uncompressed ADSR
automation — 0 at `t0`, ramp to 1 by `t0 + attack`, ramp to the sustain
level by `t0 + attack + decay`, sustain re-asserted at `t0 + d - release`,
ramp to 0 by `t0 + d` — and when `attack + decay ≥ d` no proportional
compression is applied: the sustain hold interval is negative (its start
lies strictly after its end). -/
theorem envelope_shape_no_compression (instrumentId : String) (t0 d : ℚ)
    (hcomp : d ≤ (timbreOf instrumentId).attack + (timbreOf instrumentId).decay) :
    envelopeEvents (timbreOf instrumentId) t0 d =
      [GainEvent.setValue 0 t0,
       GainEvent.linearRampToValueAtTime 1 (t0 + (timbreOf instrumentId).attack),
       GainEvent.linearRampToValueAtTime (timbreOf instrumentId).sustain
         (t0 + (timbreOf instrumentId).attack + (timbreOf instrumentId).decay),
       GainEvent.setValue (timbreOf instrumentId).sustain
         (t0 + d - (timbreOf instrumentId).release),
       GainEvent.linearRampToValueAtTime 0 (t0 + d)] ∧
    envHoldEnd (timbreOf instrumentId) t0 d < envHoldStart (timbreOf instrumentId) t0 d := by
  refine ⟨rfl, ?_⟩
  have hrel := timbreOf_release_pos instrumentId
  rw [envHoldStart_eq, envHoldEnd_eq]
  linarith

/-- Witness for `envelope_shape_no_compression`: a 0.1 s violin1 note
(attack 0.04 + decay 0.08 ≥ 0.1) gets the uncompressed envelope, whose
sustain hold starts after it ends. -/
theorem envelope_shape_no_compression_witness :
    envelopeEvents (timbreOf "violin1") 0 (1/10) =
      [GainEvent.setValue 0 0,
       GainEvent.linearRampToValueAtTime 1 (0 + (timbreOf "violin1").attack),
       GainEvent.linearRampToValueAtTime (timbreOf "violin1").sustain
         (0 + (timbreOf "violin1").attack + (timbreOf "violin1").decay),
       GainEvent.setValue (timbreOf "violin1").sustain
         (0 + 1/10 - (timbreOf "violin1").release),
       GainEvent.linearRampToValueAtTime 0 (0 + 1/10)] ∧
    envHoldEnd (timbreOf "violin1") 0 (1/10) < envHoldStart (timbreOf "violin1") 0 (1/10) :=
  envelope_shape_no_compression "violin1" 0 (1/10)
    (by norm_num [timbreOf, TIMBRES, violin1Timbre])

/-- Counterexample to claim C7 as stated: for a violin1 note of sounding
duration 0.1 s starting at `t0 = 0` we have `attack + decay = 0.12 ≥ 0.1`,
yet the envelope is not compressed — the emitted automation holds a
negative sustain interval, starting at 0.12 s and ending at -0.02 s. -/
theorem envelope_compression_counterexample :
    (1/10 : ℚ) ≤ (timbreOf "violin1").attack + (timbreOf "violin1").decay ∧
    envHoldStart (timbreOf "violin1") 0 (1/10) = 12/100 ∧
    envHoldEnd (timbreOf "violin1") 0 (1/10) = -(2/100) ∧
    envHoldEnd (timbreOf "violin1") 0 (1/10) < 0 := by
  have hv : timbreOf "violin1" = violin1Timbre := rfl
  rw [envHoldStart_eq, envHoldEnd_eq, hv]
  norm_num [violin1Timbre]

/-- Claim C6: a client-side placement whose added beat count would overflow
the measure, or whose span would extend past the measure's end, is rejected
locally as a no-op (`none`: no network call, note set untouched) — by the
editor path for any selected duration, and by the beginner path (whose new
note is always a 1-beat quarter) on capacity overflow. -/
theorem placement_capacity_rejection :
    (∀ (data : ScoreData) (instrumentId : String) (measure : ℤ) (selectedDuration : String)
        (selectedAccidental : Option String) (restMode : Bool) (dynamic sessionId pitch : String)
        (beat : ℚ),
      (timeSigBeats data.score.time_signature
          < usedBeatsIn data.notes instrumentId measure + durBeatsOr1 selectedDuration ∨
        timeSigBeats data.score.time_signature < beat + durBeatsOr1 selectedDuration - 1) →
      placeNote data instrumentId measure selectedDuration selectedAccidental restMode
        dynamic sessionId pitch beat = none) ∧
    (∀ (data : ScoreData) (currentInstrument : String) (currentMeasure : ℤ)
        (sessionId pitch : String) (beat : ℚ),
      timeSigBeats data.score.time_signature
          < ((notesFor data.notes currentInstrument currentMeasure).map
              (fun n => durBeatsOr0 n.duration)).sum + 1 →
      beginnerPlace data currentInstrument currentMeasure sessionId pitch beat = none) := by
  constructor
  · intro data instrumentId measure selectedDuration selectedAccidental restMode dynamic
      sessionId pitch beat h
    simp only [placeNote.eq_def]
    rw [if_pos h]
  · intro data currentInstrument currentMeasure sessionId pitch beat h
    rw [beginnerPlace, if_pos h]

/-- Witness for `placement_capacity_rejection`: with 3.5 beats already in
the 4-beat measure, placing a half note is rejected locally, and the
beginner path likewise rejects its quarter note. -/
theorem placement_capacity_rejection_witness :
    placeNote data35 "violin1" 1 "half" none false "mf" "s2" "F4" 1 = none ∧
    beginnerPlace ⟨seedScore, [halfAt1, quarterAt3, eighthAt4,
      ⟨"a5", "violin1", "A4", 1, 4, "quarter", false, none, "mf", some "s1"⟩]⟩
      "violin1" 1 "s2" "C4" 2 = none := by
  constructor
  · refine (placement_capacity_rejection).1 data35 "violin1" 1 "half" none false "mf" "s2"
      "F4" 1 (Or.inl ?_)
    have h4 : timeSigBeats data35.score.time_signature = 4 := rfl
    have hu : usedBeatsIn data35.notes "violin1" 1 = 7/2 := by
      norm_num [usedBeatsIn, notesFor, data35, seedScore, quarterAt1, quarterAt2, quarterAt3,
        eighthAt4, durBeatsOr0, DUR_TO_BEATS, List.filter]
    rw [h4, hu]
    norm_num [durBeatsOr1, DUR_TO_BEATS]
  · refine (placement_capacity_rejection).2 _ "violin1" 1 "s2" "C4" 2 ?_
    have h4 : timeSigBeats seedScore.time_signature = 4 := rfl
    norm_num [h4, notesFor, halfAt1, quarterAt3, eighthAt4, durBeatsOr0, DUR_TO_BEATS,
      List.filter]

/-- Claim C5 (amended): the client paths do not enforce span-overlap
rejection; what they enforce at matching beats is: a click at a beat within
0.01 of an existing note's beat makes the editor delete that note instead
of placing, and makes the beginner path a no-op. -/
theorem coincident_beat_rejection (data : ScoreData) (instrumentId : String) (measure : ℤ)
    (sessionId pitch : String) (beat : ℚ)
    (h : ∃ n ∈ notesFor data.notes instrumentId measure, |n.beat - beat| < 1/100) :
    editorClickFindsExisting data instrumentId measure beat = true ∧
    beginnerPlace data instrumentId measure sessionId pitch beat = none := by
  obtain ⟨n, hn, hclose⟩ := h
  rw [notesFor, List.mem_filter, Bool.and_eq_true, beq_iff_eq, beq_iff_eq] at hn
  obtain ⟨hmem, hinst, hmeas⟩ := hn
  constructor
  · rw [editorClickFindsExisting, List.any_eq_true]
    exact ⟨n, hmem, by simp [hinst, hmeas]; simpa using hclose⟩
  · rw [beginnerPlace]
    by_cases hcap : timeSigBeats data.score.time_signature
        < ((notesFor data.notes instrumentId measure).map
            (fun n => durBeatsOr0 n.duration)).sum + 1
    · rw [if_pos hcap]
    · rw [if_neg hcap, if_pos]
      rw [List.any_eq_true]
      refine ⟨n, ?_, by simpa using hclose⟩
      rw [notesFor, List.mem_filter]
      simp [hmem, hinst, hmeas]

/-- Witness for `coincident_beat_rejection`: clicking at beat 2 of a
measure holding a note at beat 2. -/
theorem coincident_beat_rejection_witness :
    editorClickFindsExisting dataEditorOverlap "violin1" 1 2 = true ∧
    beginnerPlace dataEditorOverlap "violin1" 1 "s2" "C4" 2 = none := by
  refine coincident_beat_rejection dataEditorOverlap "violin1" 1 "s2" "C4" 2
    ⟨quarterAt2, ?_, ?_⟩
  · simp [notesFor, dataEditorOverlap, quarterAt2, List.filter]
  · norm_num [quarterAt2]

/-- Counterexample to claim C5 as stated: neither client acceptance path
rejects span overlaps.  In the editor, with a quarter note at beat 2, a
click at beat 1 does not hit the delete branch and a half note placed at
beat 1 (span `[1, 3)`, overlapping the note's span `[2, 3)`) passes every
check and is sent to the store; in the beginner view, with a half note at
beat 1, a quarter placed at beat 2 (span `[2, 3)` inside `[1, 3)`) is
likewise accepted. -/
theorem overlap_accepted_counterexample :
    spansOverlap 1 (durBeatsOr1 "half") quarterAt2.beat (durBeatsOr1 quarterAt2.duration) ∧
    editorClickFindsExisting dataEditorOverlap "violin1" 1 1 = false ∧
    (placeNote dataEditorOverlap "violin1" 1 "half" none false "mf" "s2" "F4" 1).isSome
      = true ∧
    spansOverlap 2 (durBeatsOr1 "quarter") halfAt1.beat (durBeatsOr1 halfAt1.duration) ∧
    (beginnerPlace dataBeginnerOverlap "violin1" 1 "s2" "C4" 2).isSome = true := by
  have h4 : timeSigBeats "4/4" = 4 := rfl
  refine ⟨?_, ?_, ?_, ?_, ?_⟩
  · norm_num [spansOverlap, quarterAt2, durBeatsOr1, DUR_TO_BEATS]
  · rw [editorClickFindsExisting]
    simp only [dataEditorOverlap, seedScore, quarterAt2, List.any_cons, List.any_nil]
    norm_num
  · have hu : usedBeatsIn dataEditorOverlap.notes "violin1" 1 = 1 := by
      norm_num [usedBeatsIn, notesFor, dataEditorOverlap, seedScore, quarterAt2,
        durBeatsOr0, DUR_TO_BEATS, List.filter]
    have hts : timeSigBeats dataEditorOverlap.score.time_signature = 4 := rfl
    have hcond : ¬(timeSigBeats dataEditorOverlap.score.time_signature
        < usedBeatsIn dataEditorOverlap.notes "violin1" 1 + durBeatsOr1 "half" ∨
        timeSigBeats dataEditorOverlap.score.time_signature
          < 1 + durBeatsOr1 "half" - 1) := by
      rw [hu, hts]
      norm_num [durBeatsOr1, DUR_TO_BEATS]
    simp only [placeNote.eq_def]
    rw [if_neg hcond]
    rfl
  · norm_num [spansOverlap, halfAt1, durBeatsOr1, DUR_TO_BEATS]
  · rw [beginnerPlace, if_neg, if_neg]
    · rfl
    · rw [Bool.not_eq_true, ← Bool.not_eq_true']
      simp only [notesFor, dataBeginnerOverlap, seedScore, halfAt1, List.filter, List.any_cons,
        List.any_nil]
      norm_num
    · push_neg
      norm_num [notesFor, dataBeginnerOverlap, seedScore, halfAt1, durBeatsOr0, DUR_TO_BEATS,
        List.filter, h4]

/-- The beat total of an empty emission. -/
theorem sumBeats_nil : sumBeats [] = 0 := rfl

/-- The beat total of a cons emission. -/
theorem sumBeats_cons (e : VexStaveNote) (l : List VexStaveNote) :
    sumBeats (e :: l) = e.beats + sumBeats l := by
  simp [sumBeats]

/-- The beat total of a concatenation. -/
theorem sumBeats_append (l1 l2 : List VexStaveNote) :
    sumBeats (l1 ++ l2) = sumBeats l1 + sumBeats l2 := by
  simp [sumBeats]

/-- The beat total of `c` copies of one rest of `d` beats. -/
theorem sumBeats_replicate (c : ℕ) (clef : String) (d : ℚ) (v : String) :
    sumBeats (List.replicate c (restStaveNote clef d v)) = c * d := by
  simp [sumBeats, List.map_replicate, List.sum_replicate, restStaveNote, nsmul_eq_mul]

/-- A grid value minus a grid value is a grid value. -/
theorem QuarterGrid.sub {a b : ℚ} (ha : QuarterGrid a) (hb : QuarterGrid b) :
    QuarterGrid (a - b) := by
  obtain ⟨j, rfl⟩ := ha
  obtain ⟨k, rfl⟩ := hb
  exact ⟨j - k, by push_cast; ring⟩

/-- A grid value plus a grid value is a grid value. -/
theorem QuarterGrid.add {a b : ℚ} (ha : QuarterGrid a) (hb : QuarterGrid b) :
    QuarterGrid (a + b) := by
  obtain ⟨j, rfl⟩ := ha
  obtain ⟨k, rfl⟩ := hb
  exact ⟨j + k, by push_cast; ring⟩

/-- Natural-number casts lie on the grid. -/
theorem quarterGrid_natCast (n : ℕ) : QuarterGrid (n : ℚ) :=
  ⟨4 * n, by push_cast; ring⟩

/-- A natural multiple of a grid value is a grid value. -/
theorem quarterGrid_natMul (c : ℕ) {d : ℚ} (hd : QuarterGrid d) : QuarterGrid ((c : ℚ) * d) := by
  obtain ⟨j, rfl⟩ := hd
  exact ⟨c * j, by push_cast; ring⟩

/-- A grid value in the open interval `(-0.001, 0.249)` is zero. -/
theorem quarterGrid_small_eq_zero {q : ℚ} (hg : QuarterGrid q) (h1 : -(1/1000) ≤ q)
    (h2 : q < 1/4 - 1/1000) : q = 0 := by
  obtain ⟨k, rfl⟩ := hg
  have hk1 : (-1 : ℚ) < (k : ℚ) := by linarith
  have hk2 : (k : ℚ) < 1 := by linarith
  have hk1' : (-1 : ℤ) < k := by exact_mod_cast hk1
  have hk2' : k < (1 : ℤ) := by exact_mod_cast hk2
  have : k = 0 := by omega
  rw [this]
  norm_num

/-- One rest-fill loop which cannot fire leaves everything unchanged. -/
theorem fillLoop_nil (clef : String) (d : ℚ) (v : String) (rem : ℚ)
    (h : rem < d - 1/1000) : fillLoop clef d v rem = ([], rem) := by
  rw [fillLoop, dif_neg]
  rintro ⟨-, h2⟩
  linarith

/-- One firing step of the rest-fill loop. -/
theorem fillLoop_step (clef : String) (d : ℚ) (v : String) (rem : ℚ)
    (hd : 1/4 ≤ d) (hr : d - 1/1000 ≤ rem) :
    fillLoop clef d v rem =
      (restStaveNote clef d v :: (fillLoop clef d v (rem - d)).1,
        (fillLoop clef d v (rem - d)).2) := by
  rw [fillLoop, dif_pos ⟨hd, hr⟩]

/-- Characterization of one full duration stage of the rest fill: it emits
some number of equal rests, leaves a residual below the firing threshold,
and can overshoot zero by at most the `0.001` epsilon. -/
theorem fillLoop_eq (clef : String) (d : ℚ) (v : String) (hd : 1/4 ≤ d) (rem : ℚ) :
    ∃ c : ℕ, fillLoop clef d v rem = (List.replicate c (restStaveNote clef d v), rem - c * d) ∧
      rem - c * d < d - 1/1000 ∧ (-(1/1000) ≤ rem → -(1/1000) ≤ rem - c * d) := by
  induction rem using fillLoop.induct clef d v with
  | case1 rem h ih =>
      obtain ⟨hd', hrem⟩ := h
      obtain ⟨c, hc, hb, hlow⟩ := ih
      refine ⟨c + 1, ?_, ?_, ?_⟩
      · rw [fillLoop_step clef d v rem hd' hrem, hc, List.replicate_succ]
        refine Prod.ext rfl ?_
        push_cast
        ring
      · have : rem - (c + 1 : ℕ) * d = rem - d - c * d := by push_cast; ring
        rw [this]
        exact hb
      · intro _
        have h1 : -(1/1000) ≤ rem - d := by linarith
        have : rem - (c + 1 : ℕ) * d = rem - d - c * d := by push_cast; ring
        rw [this]
        exact hlow h1
  | case2 rem h =>
      refine ⟨0, ?_, ?_, fun h1 => by norm_num; linarith⟩
      · rw [fillLoop, dif_neg h]
        norm_num
      · push_neg at h
        have := h hd
        norm_num
        linarith

/-- Full characterization of `pushRests`: a longest-first decomposition
into whole, half, quarter, eighth and sixteenth rests whose total is the
gap minus a residual; the residual is below one sixteenth (minus the
epsilon), at worst `0.001` below zero, and exactly zero whenever the gap
is a nonnegative grid value. -/
theorem pushRests_spec (clef : String) (gap : ℚ) :
    ∃ (c1 c2 c3 c4 c5 : ℕ) (r : ℚ),
      pushRests clef gap =
        List.replicate c1 (restStaveNote clef 4 "w") ++
        (List.replicate c2 (restStaveNote clef 2 "h") ++
        (List.replicate c3 (restStaveNote clef 1 "q") ++
        (List.replicate c4 (restStaveNote clef (1/2) "8") ++
        List.replicate c5 (restStaveNote clef (1/4) "16")))) ∧
      sumBeats (pushRests clef gap) = gap - r ∧
      r < 1/4 - 1/1000 ∧
      (0 ≤ gap → -(1/1000) ≤ r) ∧
      (QuarterGrid gap → 0 ≤ gap → r = 0) := by
  obtain ⟨c1, e1, b1, l1⟩ := fillLoop_eq clef 4 "w" (by norm_num) gap
  set r1 := gap - c1 * 4 with hr1
  obtain ⟨c2, e2, b2, l2⟩ := fillLoop_eq clef 2 "h" (by norm_num) r1
  set r2 := r1 - c2 * 2 with hr2
  obtain ⟨c3, e3, b3, l3⟩ := fillLoop_eq clef 1 "q" (by norm_num) r2
  set r3 := r2 - c3 * 1 with hr3
  obtain ⟨c4, e4, b4, l4⟩ := fillLoop_eq clef (1/2) "8" (by norm_num) r3
  set r4 := r3 - c4 * (1/2) with hr4
  obtain ⟨c5, e5, b5, l5⟩ := fillLoop_eq clef (1/4) "16" (by norm_num) r4
  set r5 := r4 - c5 * (1/4) with hr5
  have hpush : pushRests clef gap =
      List.replicate c1 (restStaveNote clef 4 "w") ++
      (List.replicate c2 (restStaveNote clef 2 "h") ++
      (List.replicate c3 (restStaveNote clef 1 "q") ++
      (List.replicate c4 (restStaveNote clef (1/2) "8") ++
      List.replicate c5 (restStaveNote clef (1/4) "16")))) := by
    rw [pushRests, REST_DURATIONS]
    simp only [pushRestsGo, e1, e2, e3, e4, e5]
    simp only [List.append_nil]
  refine ⟨c1, c2, c3, c4, c5, r5, hpush, ?_, b5, ?_, ?_⟩
  · rw [hpush]
    simp only [sumBeats_append, sumBeats_replicate]
    rw [hr5, hr4, hr3, hr2, hr1]
    ring
  · intro hgap
    have h1 := l1 (by linarith)
    have h2 := l2 h1
    have h3 := l3 h2
    have h4 := l4 h3
    exact l5 h4
  · intro hgrid hgap
    have g1 : QuarterGrid r1 := (hr1 ▸ hgrid.sub (quarterGrid_natMul c1 ⟨16, by norm_num⟩))
    have g2 : QuarterGrid r2 := (hr2 ▸ g1.sub (quarterGrid_natMul c2 ⟨8, by norm_num⟩))
    have g3 : QuarterGrid r3 := (hr3 ▸ g2.sub (quarterGrid_natMul c3 ⟨4, by norm_num⟩))
    have g4 : QuarterGrid r4 := (hr4 ▸ g3.sub (quarterGrid_natMul c4 ⟨2, by norm_num⟩))
    have g5 : QuarterGrid r5 := (hr5 ▸ g4.sub (quarterGrid_natMul c5 ⟨1, by norm_num⟩))
    have hlow : -(1/1000) ≤ r5 := l5 (l4 (l3 (l2 (l1 (by linarith)))))
    exact quarterGrid_small_eq_zero g5 hlow b5

/-- On a nonnegative grid gap the greedy fill is exact. -/
theorem pushRests_sum_grid (clef : String) (gap : ℚ) (hg : QuarterGrid gap)
    (h0 : 0 ≤ gap) : sumBeats (pushRests clef gap) = gap := by
  obtain ⟨c1, c2, c3, c4, c5, r, -, hsum, -, -, hzero⟩ := pushRests_spec clef gap
  rw [hsum, hzero hg h0, sub_zero]

/-- Every element emitted by `pushRests` is a rest without a source id
whose beat count is one of the five rest denominations. -/
theorem pushRests_mem (clef : String) (gap : ℚ) (e : VexStaveNote)
    (he : e ∈ pushRests clef gap) :
    e.isRest = true ∧ e.srcId = none ∧
      (e.beats = 4 ∨ e.beats = 2 ∨ e.beats = 1 ∨ e.beats = 1/2 ∨ e.beats = 1/4) := by
  obtain ⟨c1, c2, c3, c4, c5, r, hpush, -, -, -, -⟩ := pushRests_spec clef gap
  rw [hpush] at he
  simp only [List.mem_append, List.mem_replicate] at he
  rcases he with ⟨-, rfl⟩ | ⟨-, rfl⟩ | ⟨-, rfl⟩ | ⟨-, rfl⟩ | ⟨-, rfl⟩ <;>
    simp [restStaveNote]

/-- Claim C8 (amended): for every nonnegative gap, `pushRests` decomposes
the gap longest-first over the duration set (whole, half, quarter, eighth,
sixteenth); every emitted rest is one of those five denominations (so no
rest is ever shorter than the smallest unit); the residual left unfilled is
below `0.25 - 0.001` beats — such a remainder is dropped as already filled,
and it can reach `0.001` beats or more for gaps off the sixteenth grid —
and on a nonnegative sixteenth-grid gap the residual is exactly zero. -/
theorem pushRests_greedy_fill (clef : String) (gap : ℚ) (h0 : 0 ≤ gap) :
    (∃ c1 c2 c3 c4 c5 : ℕ, pushRests clef gap =
        List.replicate c1 (restStaveNote clef 4 "w") ++
        (List.replicate c2 (restStaveNote clef 2 "h") ++
        (List.replicate c3 (restStaveNote clef 1 "q") ++
        (List.replicate c4 (restStaveNote clef (1/2) "8") ++
        List.replicate c5 (restStaveNote clef (1/4) "16"))))) ∧
    (∀ e ∈ pushRests clef gap, e.isRest = true ∧ 1/4 ≤ e.beats ∧
      (e.beats = 4 ∨ e.beats = 2 ∨ e.beats = 1 ∨ e.beats = 1/2 ∨ e.beats = 1/4)) ∧
    -(1/1000) ≤ gap - sumBeats (pushRests clef gap) ∧
    gap - sumBeats (pushRests clef gap) < 1/4 - 1/1000 ∧
    (QuarterGrid gap → sumBeats (pushRests clef gap) = gap) := by
  obtain ⟨c1, c2, c3, c4, c5, r, hpush, hsum, hres, hlow, hzero⟩ := pushRests_spec clef gap
  refine ⟨⟨c1, c2, c3, c4, c5, hpush⟩, ?_, ?_, ?_, ?_⟩
  · intro e he
    obtain ⟨h1, -, h3⟩ := pushRests_mem clef gap e he
    refine ⟨h1, ?_, h3⟩
    rcases h3 with h | h | h | h | h <;> rw [h] <;> norm_num
  · rw [hsum]
    have := hlow h0
    linarith
  · rw [hsum]
    linarith
  · intro hg
    rw [hsum, hzero hg h0, sub_zero]

/-- Witness for `pushRests_greedy_fill`: a 3-beat gap. -/
theorem pushRests_greedy_fill_witness :
    sumBeats (pushRests "treble" 3) = 3 ∧
    -(1/1000 : ℚ) ≤ 3 - sumBeats (pushRests "treble" 3) :=
  ⟨(pushRests_greedy_fill "treble" 3 (by norm_num)).2.2.2.2 ⟨12, by norm_num⟩,
   (pushRests_greedy_fill "treble" 3 (by norm_num)).2.2.1⟩

/-- Counterexample to claim C8 as stated: the off-grid gap `0.2` is left
entirely unfilled — no rest is emitted although a residual gap of `0.2`
beats, far above `0.001`, remains. -/
theorem pushRests_residual_counterexample :
    pushRests "treble" (1/5) = [] ∧
    (1/1000 : ℚ) ≤ 1/5 - sumBeats (pushRests "treble" (1/5)) := by
  have h1 : fillLoop "treble" 4 "w" (1/5) = ([], 1/5) :=
    fillLoop_nil "treble" 4 "w" (1/5) (by norm_num)
  have h2 : fillLoop "treble" 2 "h" (1/5) = ([], 1/5) :=
    fillLoop_nil "treble" 2 "h" (1/5) (by norm_num)
  have h3 : fillLoop "treble" 1 "q" (1/5) = ([], 1/5) :=
    fillLoop_nil "treble" 1 "q" (1/5) (by norm_num)
  have h4 : fillLoop "treble" (1/2) "8" (1/5) = ([], 1/5) :=
    fillLoop_nil "treble" (1/2) "8" (1/5) (by norm_num)
  have h5 : fillLoop "treble" (1/4) "16" (1/5) = ([], 1/5) :=
    fillLoop_nil "treble" (1/4) "16" (1/5) (by norm_num)
  have he : pushRests "treble" (1/5) = [] := by
    rw [pushRests, REST_DURATIONS]
    simp only [pushRestsGo, h1, h2, h3, h4, h5, List.nil_append]
  rw [he, sumBeats_nil]
  norm_num

/-- The effective beat count of any duration name is one of the five table
values or the fallback 1. -/
theorem durBeatsOr1_cases (s : String) :
    durBeatsOr1 s = 4 ∨ durBeatsOr1 s = 2 ∨ durBeatsOr1 s = 1 ∨
      durBeatsOr1 s = 1/2 ∨ durBeatsOr1 s = 1/4 := by
  rw [durBeatsOr1, DUR_TO_BEATS.eq_def]
  split <;> simp

/-- Every effective beat count is at least a sixteenth. -/
theorem durBeatsOr1_quarter_le (s : String) : 1/4 ≤ durBeatsOr1 s := by
  rcases durBeatsOr1_cases s with h | h | h | h | h <;> rw [h] <;> norm_num

/-- Every effective beat count lies on the sixteenth grid. -/
theorem durBeatsOr1_grid (s : String) : QuarterGrid (durBeatsOr1 s) := by
  rcases durBeatsOr1_cases s with h | h | h | h | h <;> rw [h]
  · exact ⟨16, by norm_num⟩
  · exact ⟨8, by norm_num⟩
  · exact ⟨4, by norm_num⟩
  · exact ⟨2, by norm_num⟩
  · exact ⟨1, by norm_num⟩

/-- The glyph emitted for a source note carries that note's effective beat
count. -/
theorem noteStaveNote_beats (clef : String) (K : Char → String) (n : Note) :
    (noteStaveNote clef K n).beats = durBeatsOr1 n.duration := by
  rw [noteStaveNote]
  split <;> rfl

/-- The glyph emitted for a source note carries its id exactly when the
note is pitched. -/
theorem noteStaveNote_srcId (clef : String) (K : Char → String) (n : Note) :
    (noteStaveNote clef K n).srcId = if n.is_rest then none else some n.id := by
  rw [noteStaveNote]
  split <;> simp_all

/-- Invariant of the cursor loop of `buildMeasureNotes`: over a beat-sorted,
non-overlapping, measure-fitting, grid-aligned note list whose beats lie at
or after the (grid-aligned) cursor, the emitted beat total is exactly the
distance from the cursor to the end of the measure. -/
theorem buildGo_sum (clef : String) (K : Char → String) (B : ℚ) (hB : QuarterGrid B) :
    ∀ (l : List Note) (cursor : ℚ), QuarterGrid cursor → cursor ≤ B + 1 →
    (∀ n ∈ l, cursor ≤ n.beat) →
    (∀ n ∈ l, QuarterGrid n.beat) →
    (∀ n ∈ l, n.beat + durBeatsOr1 n.duration ≤ B + 1) →
    List.Sorted (fun a b : Note => a.beat ≤ b.beat) l →
    List.Pairwise (fun a b : Note => a.beat + durBeatsOr1 a.duration ≤ b.beat ∨
      b.beat + durBeatsOr1 b.duration ≤ a.beat) l →
    sumBeats (buildGo clef K B cursor l) = B + 1 - cursor := by
  intro l
  induction l with
  | nil =>
      intro cursor hgc hcB _ _ _ _ _
      simp only [buildGo]
      by_cases hrem : 1/1000 < B - cursor + 1
      · rw [if_pos hrem]
        rw [pushRests_sum_grid clef _ ((hB.sub hgc).add ⟨4, by norm_num⟩) (by linarith)]
        ring
      · rw [if_neg hrem]
        push_neg at hrem
        have hz : B - cursor + 1 = 0 :=
          quarterGrid_small_eq_zero ((hB.sub hgc).add ⟨4, by norm_num⟩)
            (by linarith) (by linarith)
        rw [sumBeats_nil]
        linarith
  | cons n rest ih =>
      intro cursor hgc hcB hle hgrid hfit hsorted hpair
      have hdq := durBeatsOr1_quarter_le n.duration
      have hdg := durBeatsOr1_grid n.duration
      have hcn : cursor ≤ n.beat := hle n (List.mem_cons_self n rest)
      have hng : QuarterGrid n.beat := hgrid n (List.mem_cons_self n rest)
      have hnf : n.beat + durBeatsOr1 n.duration ≤ B + 1 :=
        hfit n (List.mem_cons_self n rest)
      have hnext : ∀ m ∈ rest, n.beat + durBeatsOr1 n.duration ≤ m.beat := by
        intro m hm
        have hsort' : n.beat ≤ m.beat := (List.sorted_cons.mp hsorted).1 m hm
        have hmq := durBeatsOr1_quarter_le m.duration
        rcases (List.pairwise_cons.mp hpair).1 m hm with h | h
        · exact h
        · linarith
      have ihapp : sumBeats (buildGo clef K B (n.beat + durBeatsOr1 n.duration) rest)
          = B + 1 - (n.beat + durBeatsOr1 n.duration) :=
        ih (n.beat + durBeatsOr1 n.duration) (hng.add hdg) hnf hnext
          (fun m hm => hgrid m (List.mem_cons_of_mem n hm))
          (fun m hm => hfit m (List.mem_cons_of_mem n hm))
          (List.sorted_cons.mp hsorted).2 (List.pairwise_cons.mp hpair).2
      simp only [buildGo]
      by_cases hgap : cursor + 1/1000 < n.beat
      · rw [if_pos hgap]
        rw [sumBeats_append, sumBeats_cons, noteStaveNote_beats, ihapp,
          pushRests_sum_grid clef _ (hng.sub hgc) (by linarith)]
        ring
      · rw [if_neg hgap]
        push_neg at hgap
        have hz : n.beat - cursor = 0 :=
          quarterGrid_small_eq_zero (hng.sub hgc) (by linarith) (by linarith)
        have hbc : n.beat = cursor := by linarith
        rw [hbc] at ihapp
        rw [sumBeats_cons, noteStaveNote_beats, ihapp]
        linarith

/-- Synthesized rests never carry a source id, so they vanish under the
id projection. -/
theorem pushRests_filterMap_srcId (clef : String) (gap : ℚ) :
    (pushRests clef gap).filterMap (fun e => e.srcId) = [] := by
  rw [List.filterMap_eq_nil]
  intro e he
  exact (pushRests_mem clef gap e he).2.1

/-- The id projection of the cursor loop's output lists exactly the pitched
source notes, in traversal order. -/
theorem buildGo_ids (clef : String) (K : Char → String) (B : ℚ) :
    ∀ (l : List Note) (cursor : ℚ),
      (buildGo clef K B cursor l).filterMap (fun e => e.srcId) =
        l.filterMap (fun n => if n.is_rest then none else some n.id) := by
  intro l
  induction l with
  | nil =>
      intro cursor
      simp only [buildGo]
      by_cases hrem : 1/1000 < B - cursor + 1
      · rw [if_pos hrem, pushRests_filterMap_srcId, List.filterMap_nil]
      · rw [if_neg hrem, List.filterMap_nil, List.filterMap_nil]
  | cons n rest ih =>
      intro cursor
      simp only [buildGo]
      by_cases hgap : cursor + 1/1000 < n.beat
      · rw [if_pos hgap, List.filterMap_append, pushRests_filterMap_srcId,
          List.filterMap_cons, List.filterMap_cons, noteStaveNote_srcId]
        by_cases hr : n.is_rest
        · simp only [hr, if_true, List.nil_append, ih]
        · simp only [hr, if_false, List.nil_append, ih]
      · rw [if_neg hgap, List.filterMap_cons, List.filterMap_cons, noteStaveNote_srcId]
        by_cases hr : n.is_rest
        · simp only [hr, if_true, ih]
        · simp only [hr, if_false, ih]

/-- Claim C1 (amended): for every valid beats-per-measure `B` and every
note set for one `(instrument, measure)` whose durations' beat-counts sum
to at most `B`, whose beats lie on the sixteenth grid at or after beat 1,
whose spans fit inside the measure (`beat + durationBeats - 1 ≤ B`) and do
not overlap, `buildMeasureNotes` returns a sequence whose beat-counts sum
to exactly `B` and whose pitched glyphs list exactly the input's pitched
notes in beat order. -/
theorem buildMeasureNotes_complete (notes : List Note) (clef : String)
    (K : Char → String) (B : ℕ)
    (hgrid : ∀ n ∈ notes, ∃ k : ℕ, n.beat = 1 + (k : ℚ)/4)
    (hfit : ∀ n ∈ notes, n.beat + durBeatsOr1 n.duration - 1 ≤ (B : ℚ))
    (hsum : (notes.map (fun n => durBeatsOr1 n.duration)).sum ≤ (B : ℚ))
    (hnov : notes.Pairwise (fun a b => a.beat + durBeatsOr1 a.duration ≤ b.beat ∨
      b.beat + durBeatsOr1 b.duration ≤ a.beat)) :
    sumBeats (buildMeasureNotes notes clef K (B : ℚ)) = B ∧
    (buildMeasureNotes notes clef K (B : ℚ)).filterMap (fun e => e.srcId) =
      (sortNotesByBeat notes).filterMap (fun n => if n.is_rest then none else some n.id) := by
  have hperm : List.Perm (sortNotesByBeat notes) notes :=
    List.perm_insertionSort (fun a b : Note => a.beat ≤ b.beat) notes
  have hmem : ∀ n, n ∈ sortNotesByBeat notes → n ∈ notes := fun n hn => hperm.mem_iff.mp hn
  constructor
  · rw [buildMeasureNotes]
    have h := buildGo_sum clef K (B : ℚ) (quarterGrid_natCast B) (sortNotesByBeat notes) 1
      ⟨4, by norm_num⟩ (by have hB0 : (0:ℚ) ≤ (B:ℚ) := Nat.cast_nonneg B; linarith)
      (fun n hn => by
        obtain ⟨k, hk⟩ := hgrid n (hmem n hn)
        rw [hk]
        have hk0 : (0:ℚ) ≤ (k:ℚ)/4 := by positivity
        linarith)
      (fun n hn => by
        obtain ⟨k, hk⟩ := hgrid n (hmem n hn)
        exact ⟨4 + k, by rw [hk]; push_cast; ring⟩)
      (fun n hn => by have := hfit n (hmem n hn); linarith)
      (List.sorted_insertionSort (fun a b : Note => a.beat ≤ b.beat) notes)
      ((hperm.pairwise_iff (fun hab => hab.symm)).mpr hnov)
    rw [h]
    ring
  · exact buildGo_ids clef K (B : ℚ) (sortNotesByBeat notes) 1

/-- Witness for `buildMeasureNotes_complete`: the spec scenario — a 4-beat
measure holding one half note at beat 1 completes to exactly 4 beats. -/
theorem buildMeasureNotes_complete_witness :
    sumBeats (buildMeasureNotes [halfNoteAtOne] "treble" (getKeyAccidentals "D") ((4:ℕ):ℚ))
      = 4 := by
  have h := (buildMeasureNotes_complete [halfNoteAtOne] "treble" (getKeyAccidentals "D") 4
    (by
      intro n hn
      rw [List.mem_singleton] at hn
      subst hn
      exact ⟨0, by norm_num [halfNoteAtOne]⟩)
    (by
      intro n hn
      rw [List.mem_singleton] at hn
      subst hn
      norm_num [halfNoteAtOne, durBeatsOr1, DUR_TO_BEATS])
    (by norm_num [halfNoteAtOne, durBeatsOr1, DUR_TO_BEATS])
    (List.pairwise_singleton _ _)).1
  rw [h]
  norm_num

/-- Counterexample to claim C1 as stated: two single-note sets satisfying
the claim's hypotheses (duration beat-counts summing to at most `B = 4`,
no overlapping spans, rational beats inside `[1, B]`) whose completed
measure does not total 4 beats.  A quarter note at the off-grid beat 1.1
completes to 3.75 beats (the 0.1-beat gap before it and the 0.15-beat tail
are dropped); a whole note at beat 4 completes to 7 beats (its span sticks
out past the barline, and no trailing rest can compensate). -/
theorem buildMeasureNotes_sum_counterexample :
    (durBeatsOr1 offGridNote.duration ≤ 4 ∧ (1:ℚ) ≤ offGridNote.beat ∧
      offGridNote.beat ≤ 4 ∧
      sumBeats (buildMeasureNotes [offGridNote] "treble" (getKeyAccidentals "D") 4)
        = 15/4) ∧
    (durBeatsOr1 lateWholeNote.duration ≤ 4 ∧ (1:ℚ) ≤ lateWholeNote.beat ∧
      lateWholeNote.beat ≤ 4 ∧
      sumBeats (buildMeasureNotes [lateWholeNote] "treble" (getKeyAccidentals "D") 4)
        = 7) := by
  constructor
  · refine ⟨by norm_num [offGridNote, durBeatsOr1, DUR_TO_BEATS],
      by norm_num [offGridNote], by norm_num [offGridNote], ?_⟩
    have hsort : sortNotesByBeat [offGridNote] = [offGridNote] := rfl
    rw [buildMeasureNotes, hsort]
    simp only [buildGo]
    rw [if_pos (by norm_num [offGridNote])]
    have hg1 : pushRests "treble" (offGridNote.beat - 1) = [] := by
      have e1 : fillLoop "treble" 4 "w" (offGridNote.beat - 1) = ([], offGridNote.beat - 1) :=
        fillLoop_nil _ _ _ _ (by norm_num [offGridNote])
      have e2 : fillLoop "treble" 2 "h" (offGridNote.beat - 1) = ([], offGridNote.beat - 1) :=
        fillLoop_nil _ _ _ _ (by norm_num [offGridNote])
      have e3 : fillLoop "treble" 1 "q" (offGridNote.beat - 1) = ([], offGridNote.beat - 1) :=
        fillLoop_nil _ _ _ _ (by norm_num [offGridNote])
      have e4 : fillLoop "treble" (1/2) "8" (offGridNote.beat - 1)
          = ([], offGridNote.beat - 1) := fillLoop_nil _ _ _ _ (by norm_num [offGridNote])
      have e5 : fillLoop "treble" (1/4) "16" (offGridNote.beat - 1)
          = ([], offGridNote.beat - 1) := fillLoop_nil _ _ _ _ (by norm_num [offGridNote])
      rw [pushRests, REST_DURATIONS]
      simp only [pushRestsGo, e1, e2, e3, e4, e5, List.nil_append]
    rw [hg1, List.nil_append, sumBeats_cons, noteStaveNote_beats]
    rw [if_pos (by norm_num [offGridNote, durBeatsOr1, DUR_TO_BEATS])]
    have hgap : 4 - (offGridNote.beat + durBeatsOr1 offGridNote.duration) + 1 = 29/10 := by
      norm_num [offGridNote, durBeatsOr1, DUR_TO_BEATS]
    rw [hgap]
    have e1 : fillLoop "treble" 4 "w" (29/10 : ℚ) = ([], 29/10) :=
      fillLoop_nil _ _ _ _ (by norm_num)
    have e2b : fillLoop "treble" 2 "h" ((29:ℚ)/10 - 2) = ([], 29/10 - 2) :=
      fillLoop_nil _ _ _ _ (by norm_num)
    have e2 : fillLoop "treble" 2 "h" (29/10 : ℚ)
        = ([restStaveNote "treble" 2 "h"], 29/10 - 2) := by
      rw [fillLoop_step _ _ _ _ (by norm_num) (by norm_num), e2b]
    have e3 : fillLoop "treble" 1 "q" ((29:ℚ)/10 - 2) = ([], 29/10 - 2) :=
      fillLoop_nil _ _ _ _ (by norm_num)
    have e4b : fillLoop "treble" (1/2) "8" ((29:ℚ)/10 - 2 - 1/2) = ([], 29/10 - 2 - 1/2) :=
      fillLoop_nil _ _ _ _ (by norm_num)
    have e4 : fillLoop "treble" (1/2) "8" ((29:ℚ)/10 - 2)
        = ([restStaveNote "treble" (1/2) "8"], 29/10 - 2 - 1/2) := by
      rw [fillLoop_step _ _ _ _ (by norm_num) (by norm_num), e4b]
    have e5b : fillLoop "treble" (1/4) "16" ((29:ℚ)/10 - 2 - 1/2 - 1/4)
        = ([], 29/10 - 2 - 1/2 - 1/4) := fillLoop_nil _ _ _ _ (by norm_num)
    have e5 : fillLoop "treble" (1/4) "16" ((29:ℚ)/10 - 2 - 1/2)
        = ([restStaveNote "treble" (1/4) "16"], 29/10 - 2 - 1/2 - 1/4) := by
      rw [fillLoop_step _ _ _ _ (by norm_num) (by norm_num), e5b]
    have hp2 : pushRests "treble" ((29:ℚ)/10) =
        [restStaveNote "treble" 2 "h", restStaveNote "treble" (1/2) "8",
         restStaveNote "treble" (1/4) "16"] := by
      rw [pushRests, REST_DURATIONS]
      simp only [pushRestsGo, e1, e2, e3, e4, e5, List.nil_append]
      rfl
    rw [hp2]
    norm_num [sumBeats, restStaveNote, offGridNote, durBeatsOr1, DUR_TO_BEATS]
  · refine ⟨by norm_num [lateWholeNote, durBeatsOr1, DUR_TO_BEATS],
      by norm_num [lateWholeNote], by norm_num [lateWholeNote], ?_⟩
    have hsort : sortNotesByBeat [lateWholeNote] = [lateWholeNote] := rfl
    rw [buildMeasureNotes, hsort]
    simp only [buildGo]
    rw [if_pos (by norm_num [lateWholeNote])]
    have e1 : fillLoop "treble" 4 "w" (lateWholeNote.beat - 1) = ([], lateWholeNote.beat - 1) :=
      fillLoop_nil _ _ _ _ (by norm_num [lateWholeNote])
    have e2b : fillLoop "treble" 2 "h" (lateWholeNote.beat - 1 - 2)
        = ([], lateWholeNote.beat - 1 - 2) := fillLoop_nil _ _ _ _ (by norm_num [lateWholeNote])
    have e2 : fillLoop "treble" 2 "h" (lateWholeNote.beat - 1)
        = ([restStaveNote "treble" 2 "h"], lateWholeNote.beat - 1 - 2) := by
      rw [fillLoop_step _ _ _ _ (by norm_num) (by norm_num [lateWholeNote]), e2b]
    have e3b : fillLoop "treble" 1 "q" (lateWholeNote.beat - 1 - 2 - 1)
        = ([], lateWholeNote.beat - 1 - 2 - 1) :=
      fillLoop_nil _ _ _ _ (by norm_num [lateWholeNote])
    have e3 : fillLoop "treble" 1 "q" (lateWholeNote.beat - 1 - 2)
        = ([restStaveNote "treble" 1 "q"], lateWholeNote.beat - 1 - 2 - 1) := by
      rw [fillLoop_step _ _ _ _ (by norm_num) (by norm_num [lateWholeNote]), e3b]
    have e4 : fillLoop "treble" (1/2) "8" (lateWholeNote.beat - 1 - 2 - 1)
        = ([], lateWholeNote.beat - 1 - 2 - 1) :=
      fillLoop_nil _ _ _ _ (by norm_num [lateWholeNote])
    have e5 : fillLoop "treble" (1/4) "16" (lateWholeNote.beat - 1 - 2 - 1)
        = ([], lateWholeNote.beat - 1 - 2 - 1) :=
      fillLoop_nil _ _ _ _ (by norm_num [lateWholeNote])
    have hp : pushRests "treble" (lateWholeNote.beat - 1) =
        [restStaveNote "treble" 2 "h", restStaveNote "treble" 1 "q"] := by
      rw [pushRests, REST_DURATIONS]
      simp only [pushRestsGo, e1, e2, e3, e4, e5, List.nil_append]
      rfl
    rw [hp]
    rw [if_neg (by norm_num [lateWholeNote, durBeatsOr1, DUR_TO_BEATS])]
    norm_num [sumBeats, restStaveNote, noteStaveNote, lateWholeNote, durBeatsOr1, DUR_TO_BEATS]

/-- Rounding an integer plus one half floors back to the integer. -/
theorem floor_intCast_add_half (k : ℤ) : ⌊(k : ℚ) + 1/2⌋ = k := by
  rw [Int.floor_eq_iff]
  constructor
  · linarith
  · push_cast
    linarith

/-- Every diatonic letter is in the character range A–G. -/
theorem diatonic_letter_range (L : Char) (hL : L ∈ DIATONIC) : 'A' ≤ L ∧ L ≤ 'G' := by
  fin_cases hL <;> decide

/-- The index of a diatonic letter is below 7. -/
theorem diatonicIndex_lt_seven (L : Char) (hL : L ∈ DIATONIC) : diatonicIndex L < 7 := by
  fin_cases hL <;> decide

/-- Indexing `DIATONIC` at a letter's own index returns the letter. -/
theorem diatonic_getD_index (L : Char) (hL : L ∈ DIATONIC) :
    DIATONIC.getD (diatonicIndex L) 'C' = L := by
  fin_cases hL <;> decide

/-- A single-digit numeral: its string is one digit character, `parseInt`
of that character recovers the number, and the `ℤ` and `ℕ` renderings
agree. -/
theorem toString_digit (o : ℕ) (ho : o ≤ 9) :
    ∃ d : Char, (toString o).toList = [d] ∧ charDigitVal d = some o ∧
      toString ((o : ℤ)) = toString o := by
  interval_cases o <;> exact ⟨_, rfl, by decide, rfl⟩

/-- Floor of `(idx + o·7) / 7` for `idx < 7`. -/
theorem floor_div_seven (idx o : ℕ) (h : idx < 7) :
    ⌊(((idx : ℤ) + (o : ℤ) * 7 : ℤ) : ℚ) / 7⌋ = (o : ℤ) := by
  rw [Int.floor_eq_iff]
  push_cast
  constructor
  · rw [le_div_iff (by norm_num : (0:ℚ) < 7)]
    have : (0:ℚ) ≤ (idx : ℚ) := by positivity
    linarith
  · rw [div_lt_iff (by norm_num : (0:ℚ) < 7)]
    have : (idx : ℚ) < 7 := by exact_mod_cast h
    linarith

/-- JS remainder of `(idx + o·7)` by 7 for `idx < 7`. -/
theorem tmod_seven (idx o : ℕ) (h : idx < 7) :
    Int.tmod ((idx : ℤ) + (o : ℤ) * 7) 7 = (idx : ℤ) := by
  rw [Int.tmod_eq_emod (by positivity) (by norm_num)]
  omega

/-- Claim C2 (amended): for every diatonic letter, single-digit octave,
clef and key-signature map, the pitch the editor actually stores — the
harmonized pitch `letter ++ key accidental ++ octave` produced by
`linePosToPitch` — round-trips: converting it to a staff line position with
`pitchToLinePos` and back with `linePosToPitch` under the same key map
returns the same pitch string. -/
theorem pitch_position_roundtrip (L : Char) (octave : ℕ) (clef : String) (K : Char → String)
    (hL : L ∈ DIATONIC) (ho : octave ≤ 9) :
    ∃ pos : ℚ,
      pitchToLinePos (String.mk [L] ++ K L ++ toString octave) clef = some pos ∧
      linePosToPitch pos clef K = String.mk [L] ++ K L ++ toString octave := by
  obtain ⟨d, hdlist, hdval, hIntStr⟩ := toString_digit octave ho
  have hAG := diatonic_letter_range L hL
  have hidx := diatonicIndex_lt_seven L hL
  have htl : (String.mk [L] ++ K L ++ toString octave).toList
      = L :: ((K L).toList ++ (toString octave).toList) := rfl
  have hhead : (String.mk [L] ++ K L ++ toString octave).toList.head? = some L := by
    rw [htl]
    rfl
  have hlast : (String.mk [L] ++ K L ++ toString octave).toList.getLast? = some d := by
    rw [htl, hdlist]
    rw [show L :: ((K L).toList ++ [d]) = (L :: (K L).toList) ++ [d] by simp]
    rw [List.getLast?_append]
    rfl
  refine ⟨((((CLEF_BASE clef).1 + (CLEF_BASE clef).2 * 7 : ℤ)
      - (diatonicIndex L + octave * 7 : ℤ) : ℤ) : ℚ) / 2, ?_, ?_⟩
  · rw [pitchToLinePos.eq_def, hhead]
    simp only
    rw [if_pos hAG, hlast]
    simp only [hdval]
  · rw [linePosToPitch.eq_def]
    have hsteps : ⌊((((CLEF_BASE clef).1 + (CLEF_BASE clef).2 * 7 : ℤ)
        - (diatonicIndex L + octave * 7 : ℤ) : ℤ) : ℚ) / 2 * 2 + 1/2⌋
        = (((CLEF_BASE clef).1 + (CLEF_BASE clef).2 * 7 : ℤ)
          - (diatonicIndex L + octave * 7 : ℤ) : ℤ) := by
      rw [show ((((CLEF_BASE clef).1 + (CLEF_BASE clef).2 * 7 : ℤ)
          - (diatonicIndex L + octave * 7 : ℤ) : ℤ) : ℚ) / 2 * 2 + 1/2
          = ((((CLEF_BASE clef).1 + (CLEF_BASE clef).2 * 7 : ℤ)
            - (diatonicIndex L + octave * 7 : ℤ) : ℤ) : ℚ) + 1/2 by ring]
      exact floor_intCast_add_half _
    simp only [hsteps]
    have habs : ((CLEF_BASE clef).1 + (CLEF_BASE clef).2 * 7 : ℤ)
        - (((CLEF_BASE clef).1 + (CLEF_BASE clef).2 * 7 : ℤ)
          - (diatonicIndex L + octave * 7 : ℤ))
        = ((diatonicIndex L : ℤ) + (octave : ℤ) * 7) := by ring
    simp only [habs]
    rw [floor_div_seven (diatonicIndex L) octave hidx,
      tmod_seven (diatonicIndex L) octave hidx]
    rw [if_neg (not_lt.mpr (Int.natCast_nonneg _)), if_neg (not_lt.mpr (Int.natCast_nonneg _))]
    rw [Int.toNat_natCast, diatonic_getD_index L hL, hIntStr]

/-- Witness for `pitch_position_roundtrip`: the harmonized pitch F#4 in
D major round-trips through the treble staff geometry. -/
theorem pitch_position_roundtrip_witness :
    ∃ pos : ℚ,
      pitchToLinePos (String.mk ['F'] ++ getKeyAccidentals "D" 'F' ++ toString (4:ℕ))
        "treble" = some pos ∧
      linePosToPitch pos "treble" (getKeyAccidentals "D")
        = String.mk ['F'] ++ getKeyAccidentals "D" 'F' ++ toString (4:ℕ) :=
  pitch_position_roundtrip 'F' 4 "treble" (getKeyAccidentals "D") (by decide) (by decide)

/-- Counterexample to claim C2 as stated: the representable pitch F4 does
not round-trip in D major — `pitchToLinePos` places it on line 3.5 of the
treble staff, and `linePosToPitch` hands back the harmonized pitch F#4,
not F4. -/
theorem pitch_roundtrip_counterexample :
    pitchToLinePos "F4" "treble" = some (7/2) ∧
    linePosToPitch (7/2) "treble" (getKeyAccidentals "D") = "F#4" ∧
    ("F#4" : String) ≠ "F4" := by
  refine ⟨?_, ?_, by decide⟩
  · rw [pitchToLinePos.eq_def]
    rw [show ("F4".toList.head?) = some 'F' from rfl]
    simp only
    rw [if_pos (by decide)]
    rw [show ("F4".toList.getLast?) = some '4' from rfl]
    simp only [show charDigitVal '4' = some 4 from by decide, Option.some.injEq]
    rw [show diatonicIndex 'F' = 3 from by decide, show CLEF_BASE "treble" = (3, 5) from rfl]
    norm_num
  · have hs1 : (⌊(7:ℚ)/2 * 2 + 1/2⌋ : ℤ) = 7 := by
      rw [show ((7:ℚ)/2 * 2 + 1/2) = ((7:ℤ):ℚ) + 1/2 by push_cast; ring]
      exact floor_intCast_add_half 7
    have hf : (⌊((31:ℤ):ℚ)/7⌋ : ℤ) = 4 := by
      rw [Int.floor_eq_iff]
      norm_num
    have htm : Int.tmod 31 7 = 3 := by decide
    simp only [linePosToPitch, hs1]
    rw [show CLEF_BASE "treble" = (3, 5) from rfl]
    norm_num
    rw [htm]
    decide
